import Mathlib

/-!
# Verification of `mooshak_problems_targz.py`

A shallow embedding of the `build_archive` function of
`mooshak_problems_targz.py` (the single source file of this repository),
together with theorems settling the specification's claims about it.

Modelling conventions:
* Python strings are `String`; Python string comparison (used by `sort` /
  `sorted` on `pathlib.Path` values that share a parent directory) is
  code-point lexicographic, embedded below as `lexLt` on `List Char`.
* Python's dynamically typed `timeouts` argument is `PyVal`
  (int / list / anything else); `raise` is `Except.error` with a `PyError`
  distinguishing `ValueError` from `IndexError`.
* The filesystem is a lookup `Fs : String → DirData` from a directory path
  to what `build_archive` observes about it, plus the list of supplied
  problem paths.  File contents are byte lists.
* `xml.etree.ElementTree` trees are the inductive `XML`; `ET.tostring`
  with its `encoding` / `xml_declaration` arguments is `SerializedDoc`
  (the emitted bytes are a function of those three fields).
-/

namespace Mooshak

/-! ## Code-point lexicographic order on strings (Python `<` on `str`) -/

/-- Python's `<` on strings: code-point lexicographic order, with a proper
prefix ordered before its extensions. -/
def lexLt : List Char → List Char → Bool
  | _, [] => false
  | [], _ :: _ => true
  | a :: as, b :: bs =>
      if a.toNat < b.toNat then true
      else if b.toNat < a.toNat then false
      else lexLt as bs

/-- Python `s1 < s2` on strings. -/
def strLtB (a b : String) : Bool := lexLt a.data b.data

/-- Python `s1 <= s2` on strings (total order complement of `strLtB`). -/
def strLeB (a b : String) : Bool := !(strLtB b a)

/-- The sorting relation used to embed Python `list.sort()` / `sorted()` on
paths and filenames. -/
def strLeR : String → String → Prop := fun a b => strLeB a b = true

instance : DecidableRel strLeR := fun a b => instDecidableEqBool (strLeB a b) true

/-- Embeds `problems.sort()` / `sorted(...)` on same-directory paths: stable
insertion sort by the Python string order. -/
def sortStrings (l : List String) : List String := List.insertionSort strLeR l

/-! ## Small string helpers used by the embedding -/

/-- Embeds `pathlib.Path.name`: the part of the path after the last `/`
(for paths without a trailing slash, which is how `build_archive`
receives them). -/
def baseName (s : String) : String := ⟨(s.data.reverse.takeWhile (fun c => c ≠ '/')).reverse⟩

/-- Whether `s` ends with `suffix`; `tests.glob("*.in")` keeps exactly the
filenames on which this holds for `".in"` (fnmatch translates `*.in` to the
regex `.*\.in` fullmatched against the name). -/
def strEndsWith (s suffix : String) : Bool := suffix.data.isSuffixOf s.data

/-- Index of the last `'.'` in a character list, if any. -/
def rfindDot : List Char → Option Nat
  | [] => none
  | c :: cs =>
      match rfindDot cs with
      | some i => some (i + 1)
      | none => if c = '.' then some 0 else none

/-- Embeds `pathlib.PurePath.stem`: the filename with its last suffix removed.
The suffix is the part from the last `.` on, but only when that `.` is
neither the first nor the last character of the name. -/
def pyStem (s : String) : String :=
  match rfindDot s.data with
  | none => s
  | some i => if 0 < i ∧ i < s.data.length - 1 then ⟨s.data.take i⟩ else s

/-- Python's `sub in s` on strings: contiguous-substring containment. -/
def charsInfixOf (xs : List Char) : List Char → Bool
  | [] => xs.isEmpty
  | y :: ys => xs.isPrefixOf (y :: ys) || charsInfixOf xs ys

/-- Embeds `sub in s` for Python strings (line 86 uses this on
`string.ascii_uppercase`): substring containment, not membership. -/
def pyStrIn (sub s : String) : Bool := charsInfixOf sub.data s.data

/-- The constant `string.ascii_uppercase`. -/
def asciiUppercase : String := "ABCDEFGHIJKLMNOPQRSTUVWXYZ"

/-! ## The `timeouts` argument (lines 51-70) -/

/-- A Python value as far as the `timeouts` argument is concerned:
an `int`, a `list`, or anything else. -/
inductive PyVal where
  | vint : Int → PyVal
  | vlist : List PyVal → PyVal
  | vother : String → PyVal

/-- The exceptions `build_archive` can raise. -/
inductive PyError where
  | valueError : String → PyError
  | indexError : PyError
deriving DecidableEq, Repr

def PyVal.isVInt : PyVal → Bool
  | .vint _ => true
  | _ => false

def PyVal.isVList : PyVal → Bool
  | .vlist _ => true
  | _ => false

/-- Lines 55-58: `for t in timeouts: if not isinstance(t, int): raise`. -/
def checkInts : List PyVal → Except PyError (List Int)
  | [] => .ok []
  | .vint t :: rest => (checkInts rest).map (fun r => t :: r)
  | _ :: _ => .error (.valueError "timeouts must be a list of ints")

/-- Lines 51-68: resolve the `timeouts` argument against `n = len(problems)`.
An `int` is broadcast; a list is first checked to hold only ints, then kept
when its length is `n`, broadcast when its length is 1, and otherwise
extended by `timeouts + [timeouts[-1]] * (n - len(timeouts))`, where
`timeouts[-1]` raises `IndexError` on the empty list.  Anything else
raises `ValueError`. -/
def resolveTimeouts (timeouts : PyVal) (n : Nat) : Except PyError (List Int) :=
  match timeouts with
  | .vint t => .ok (List.replicate n t)
  | .vlist l =>
      match checkInts l with
      | .error e => .error e
      | .ok ts =>
          if ts.length = n then .ok ts
          else if ts.length = 1 then .ok (List.replicate n (ts.headD 0))
          else
            match ts.getLast? with
            | none => .error .indexError
            | some last => .ok (ts ++ List.replicate (n - ts.length) last)
  | .vother _ => .error (.valueError "timeouts must be an int or a list")

/-! ## The filesystem as `build_archive` observes it (lines 79-122) -/

/-- One file inside a problem's `tests/` directory. -/
structure TestFile where
  name : String
  content : List Nat
deriving DecidableEq, Repr

/-- What `build_archive` observes about one candidate problem directory. -/
structure DirData where
  isDir : Bool
  hasDescriptionFile : Bool
  descriptionContent : List Nat
  hasTestsDir : Bool
  testFiles : List TestFile
deriving DecidableEq, Repr

/-- The filesystem: a lookup from a directory path to its observed data. -/
def Fs : Type := String → DirData

/-- The relation by which `sorted(...)` orders same-directory paths:
their filename strings. -/
def fileLeR : TestFile → TestFile → Prop := fun a b => strLeB a.name b.name = true

instance : DecidableRel fileLeR := fun a b => instDecidableEqBool (strLeB a.name b.name) true

/-- Embeds `sorted(list(testsdir.glob(pat)))`, given the already-filtered file list. -/
def sortFiles (l : List TestFile) : List TestFile := List.insertionSort fileLeR l

/-- Line 103: `sorted(list(testsdir.glob("*.in")))`. -/
def sortedIns (d : DirData) : List TestFile :=
  sortFiles (d.testFiles.filter (fun f => strEndsWith f.name ".in"))

/-- Line 109: `sorted(list(testsdir.glob("*.out")))`. -/
def sortedOuts (d : DirData) : List TestFile :=
  sortFiles (d.testFiles.filter (fun f => strEndsWith f.name ".out"))

/-- Lines 115-116: `list(map(lambda x: x.stem, ...))`. -/
def stemsOf (l : List TestFile) : List String := l.map (fun f => pyStem f.name)

/-- All seven per-problem checks of lines 80-122, as one boolean: the
problem survives validation iff this is `true`. -/
def accepts (d : DirData) (pname : String) : Bool :=
  d.isDir && pyStrIn pname asciiUppercase && d.hasDescriptionFile && d.hasTestsDir
    && !(decide ((sortedIns d).length = 0)) && !(decide ((sortedOuts d).length = 0))
    && decide (stemsOf (sortedIns d) = stemsOf (sortedOuts d))

/-! ## XML trees (`xml.etree.ElementTree`) and the output archive -/

/-- An `ElementTree` element: tag, attributes in insertion order, children in
insertion order.  The manifest carries no text nodes. -/
inductive XML where
  | elem : String → List (String × String) → List XML → XML

/-- The result of `ET.tostring(root, encoding=..., xml_declaration=...)`
(lines 153-155): the emitted bytes are a function of these three fields. -/
structure SerializedDoc where
  encoding : String
  xmlDecl : Bool
  doc : XML

/-- Contents of a file placed in the archive: a byte-for-byte copy made by
`shutil.copy`, or the serialized manifest. -/
inductive FileContent where
  | bytes : List Nat → FileContent
  | xmlDoc : SerializedDoc → FileContent

/-- One file member of the output tar archive (directory members omitted;
they carry no data).  Members are listed in the order the staging loop
creates the corresponding files. -/
structure ArchiveEntry where
  path : String
  content : FileContent

/-- Python's 3-ary `zip`, truncating at the shortest list. -/
def zip3 {α β γ : Type} : List α → List β → List γ → List (α × β × γ)
  | a :: as, b :: bs, c :: cs => (a, b, c) :: zip3 as bs cs
  | _, _, _ => []

/-- Lines 140-143: the `Test` element for one `(inp, out, name)` triple. -/
def testXml (pname : String) (iot : TestFile × TestFile × String) : XML :=
  .elem "Test"
    [("xml:id", pname ++ ".tests." ++ iot.2.2),
     ("input", iot.1.name), ("output", iot.2.1.name)] []

/-- Lines 124-143: the `Problem` element (with its nested `Tests` element)
built for an accepted problem. -/
def problemXml (d : DirData) (pname : String) (t : Int) : XML :=
  .elem "Problem"
    [("xml:id", pname), ("Name", pname), ("Title", pname),
     ("Description", "description.html"), ("Timeout", toString t)]
    [.elem "Tests" [("xml:id", pname ++ ".tests")]
      ((zip3 (sortedIns d) (sortedOuts d) (stemsOf (sortedIns d))).map
        (fun iot => testXml pname iot))]

/-- Lines 144-147: the two staged copies for one `(inp, out, name)` triple,
under `tests/<stem>/` with the original filenames. -/
def testEntries (pname : String) (iot : TestFile × TestFile × String) : List ArchiveEntry :=
  [⟨pname ++ "/tests/" ++ iot.2.2 ++ "/" ++ iot.1.name, .bytes iot.1.content⟩,
   ⟨pname ++ "/tests/" ++ iot.2.2 ++ "/" ++ iot.2.1.name, .bytes iot.2.1.content⟩]

/-- Lines 131-149: the file members `archivefile.add(problemdir, arcname=pname)`
contributes for an accepted problem, in staging-creation order. -/
def problemEntries (d : DirData) (pname : String) : List ArchiveEntry :=
  ⟨pname ++ "/description.html", .bytes d.descriptionContent⟩ ::
    (zip3 (sortedIns d) (sortedOuts d) (stemsOf (sortedIns d))).flatMap (testEntries pname)

/-- Lines 80-149: the body of the discovery loop for one `(p, t)` pair.
`none` is the `continue` taken by a failed check; `some` carries the
problem's manifest element and its archive members. -/
def perProblem (d : DirData) (pname : String) (t : Int) : Option (XML × List ArchiveEntry) :=
  if !d.isDir then none
  else if !(pyStrIn pname asciiUppercase) then none
  else if !d.hasDescriptionFile then none
  else if !d.hasTestsDir then none
  else if (sortedIns d).length = 0 then none
  else if (sortedOuts d).length = 0 then none
  else if stemsOf (sortedIns d) ≠ stemsOf (sortedOuts d) then none
  else some (problemXml d pname t, problemEntries d pname)

/-- The discovery loop of line 79: process each `(p, t)` pair in order,
collecting the `Problem` elements appended to `xmlproblems` and the archive
members added by `archivefile.add`. -/
def processProblems (fs : Fs) : List (String × Int) → List XML × List ArchiveEntry
  | [] => ([], [])
  | (p, t) :: rest =>
      let r := processProblems fs rest
      match perProblem (fs p) (baseName p) t with
      | none => r
      | some (x, es) => (x :: r.1, es ++ r.2)

/-- What a completed run produces. -/
structure Output where
  manifest : XML
  contentXml : SerializedDoc
  archive : List ArchiveEntry

/-- Embeds `build_archive(problems, timeouts, archive)` (lines 44-164), for an
explicit problem list: sort the problem paths, resolve the timeouts
(raising on a bad specification), then run the per-problem loop and close
the archive with `Content.xml` as its last member. -/
def buildArchive (fs : Fs) (problems : List String) (timeouts : PyVal) :
    Except PyError Output :=
  let sorted := sortStrings problems
  match resolveTimeouts timeouts sorted.length with
  | .error e => .error e
  | .ok ts =>
      let r := processProblems fs (sorted.zip ts)
      let manifest := XML.elem "Problems" [("Presents", "radio")] r.1
      .ok { manifest := manifest,
            contentXml := ⟨"ISO-8859-1", true, manifest⟩,
            archive := r.2 ++ [⟨"Content.xml", .xmlDoc ⟨"ISO-8859-1", true, manifest⟩⟩] }

/-- Whether the run ever executes `tarfile.open(archive, "w:gz")` (line 72),
which is what creates the output archive file: it runs iff the timeout
resolution just before it did not raise. -/
def archiveFileCreated (problems : List String) (timeouts : PyVal) : Bool :=
  match resolveTimeouts timeouts (sortStrings problems).length with
  | .ok _ => true
  | .error _ => false

/-! ## The temporary staging directory (line 74) -/

/-- Filesystem events relevant to the staging directory's lifetime. -/
inductive FsEvent where
  | tmpdirCreate
  | tmpdirRemove
  | other : String → FsEvent
deriving DecidableEq, Repr

/-- A computation together with the filesystem events it performs; its
result is an `Except` so a body that raises is representable. -/
structure Traced (ε α : Type) where
  events : List FsEvent
  result : Except ε α

/-- Embeds `with tempfile.TemporaryDirectory() as tmpdir: body` — the context
manager creates the directory on entry and removes it on exit, whether the
body returned normally or raised (the raise then propagates). -/
def withTempDir {ε α : Type} (body : Traced ε α) : Traced ε α :=
  ⟨FsEvent.tmpdirCreate :: (body.events ++ [FsEvent.tmpdirRemove]), body.result⟩

/-- Replay a list of events and report whether the staging directory exists
at the end. -/
def tmpdirExistsAfter (evs : List FsEvent) : Bool :=
  evs.foldl
    (fun b e =>
      match e with
      | FsEvent.tmpdirCreate => true
      | FsEvent.tmpdirRemove => false
      | FsEvent.other _ => b)
    false

/-- Embeds `build_archive` as a traced run.  The pure pipeline above cannot fail
inside the staging phase, but the real staging phase performs I/O
(`mkdir`, `shutil.copy`, `tarfile.add`, writing `Content.xml`) that may
raise; `fault` injects such a failure into the staging body. -/
def buildArchiveRun (fs : Fs) (problems : List String) (timeouts : PyVal)
    (fault : Option PyError) : Traced PyError Output :=
  let sorted := sortStrings problems
  match resolveTimeouts timeouts sorted.length with
  | .error e => ⟨[], .error e⟩
  | .ok ts =>
      let r := processProblems fs (sorted.zip ts)
      let manifest := XML.elem "Problems" [("Presents", "radio")] r.1
      withTempDir
        ⟨[FsEvent.other "stage"],
         match fault with
         | some e => .error e
         | none =>
             .ok { manifest := manifest,
                   contentXml := ⟨"ISO-8859-1", true, manifest⟩,
                   archive := r.2 ++ [⟨"Content.xml", .xmlDoc ⟨"ISO-8859-1", true, manifest⟩⟩] }⟩

/-! ## Projections used to state claims about manifests -/

def XML.tag : XML → String
  | .elem t _ _ => t

def XML.attrs : XML → List (String × String)
  | .elem _ a _ => a

def XML.children : XML → List XML
  | .elem _ _ c => c

def xmlAttr (key : String) (x : XML) : Option String :=
  (x.attrs.find? (fun kv => kv.1 = key)).map (fun kv => kv.2)

/-- The `xml:id` attributes of the `Problem` children of the root. -/
def problemIds (root : XML) : List String :=
  root.children.map (fun c => (xmlAttr "xml:id" c).getD "")

/-- For each `Problem` child, the `xml:id` attributes of the `Test`
elements under its `Tests` child, concatenated problem by problem. -/
def testIds (root : XML) : List String :=
  root.children.flatMap
    (fun c => c.children.flatMap (fun ts => ts.children.map
      (fun t => (xmlAttr "xml:id" t).getD "")))

/-! ## Concrete fixtures used by evaluation theorems -/

/-- A candidate that fails the very first check (not a directory). -/
def emptyDir : DirData := ⟨false, false, [], false, []⟩

/-- A filesystem with no problem directories at all. -/
def emptyFs : Fs := fun _ => emptyDir

/-- A fully valid problem directory layout (one matched test pair). -/
def validDir : DirData :=
  ⟨true, true, [104, 105], true, [⟨"1.in", [49]⟩, ⟨"1.out", [50]⟩]⟩

/-- A filesystem holding exactly one valid problem, `A`. -/
def oneProblemFs : Fs := fun p => if p = "A" then validDir else emptyDir

/-- A problem directory whose `tests/` holds stems `a` and `a.o`: sorting
the `.in` filenames and the `.out` filenames orders these two stems
differently (`.` sorts before `i` but after `b`... specifically
`a.in < a.o.in` while `a.o.out < a.out`), so the code compares
`["a", "a.o"]` against `["a.o", "a"]` and rejects. -/
def dotStemRejectDir : DirData :=
  ⟨true, true, [104], true,
   [⟨"a.in", [49]⟩, ⟨"a.o.in", [50]⟩, ⟨"a.out", [51]⟩, ⟨"a.o.out", [52]⟩]⟩

/-- A problem directory whose `tests/` holds stems `a` and `a.b`: both
filename-sorted lists order the stems `["a.b", "a"]` (`b` sorts before
both `i` and `o`), so the problem is accepted, but that order is not the
lexicographically sorted stem order `["a", "a.b"]`. -/
def dotStemAcceptDir : DirData :=
  ⟨true, true, [104], true,
   [⟨"a.in", [49]⟩, ⟨"a.b.in", [50]⟩, ⟨"a.out", [51]⟩, ⟨"a.b.out", [52]⟩]⟩

/-- A filesystem holding only the `dotStemAcceptDir` problem, at `A`. -/
def dotStemFs : Fs := fun p => if p = "A" then dotStemAcceptDir else emptyDir


/-! ## Order-theoretic facts about the embedded string order -/

theorem charEq_of_toNat_eq {x y : Char} (h : x.toNat = y.toNat) : x = y :=
  Char.ext (UInt32.ext h)

theorem lexLt_cons_false {x y : Char} {xs ys : List Char} :
    lexLt (x :: xs) (y :: ys) = false ↔
      y.toNat < x.toNat ∨ (x.toNat = y.toNat ∧ lexLt xs ys = false) := by
  simp only [lexLt]
  by_cases h1 : x.toNat < y.toNat
  · simp only [h1, if_true]
    constructor
    · intro h; exact absurd h (by simp)
    · intro h; omega
  · by_cases h2 : y.toNat < x.toNat
    · simp [h1, h2]
    · have hxy : x.toNat = y.toNat := by omega
      simp [h1, h2, hxy]

theorem lexLt_eq_of_not_lt :
    ∀ a b : List Char, lexLt a b = false → lexLt b a = false → a = b := by
  intro a
  induction a with
  | nil =>
      intro b hab _
      cases b with
      | nil => rfl
      | cons y ys => simp [lexLt] at hab
  | cons x xs ih =>
      intro b hab hba
      cases b with
      | nil => simp [lexLt] at hba
      | cons y ys =>
          rw [lexLt_cons_false] at hab hba
          have hxy : x.toNat = y.toNat := by omega
          have hxs : lexLt xs ys = false := by
            rcases hab with h | ⟨_, h⟩
            · omega
            · exact h
          have hys : lexLt ys xs = false := by
            rcases hba with h | ⟨_, h⟩
            · omega
            · exact h
          rw [charEq_of_toNat_eq hxy, ih ys hxs hys]

theorem lexLt_not_lt_trans :
    ∀ a b c : List Char, lexLt b a = false → lexLt c b = false → lexLt c a = false := by
  intro a
  induction a with
  | nil =>
      intro b c _ _
      cases c with
      | nil => rfl
      | cons z zs => rfl
  | cons x xs ih =>
      intro b c hba hcb
      cases b with
      | nil => simp [lexLt] at hba
      | cons y ys =>
          cases c with
          | nil => simp [lexLt] at hcb
          | cons z zs =>
              rw [lexLt_cons_false] at hba hcb ⊢
              rcases hba with h1 | ⟨h1, h1l⟩
              · rcases hcb with h2 | ⟨h2, _⟩
                · left; omega
                · left; omega
              · rcases hcb with h2 | ⟨h2, h2l⟩
                · left; omega
                · right
                  exact ⟨by omega, ih ys zs h1l h2l⟩

theorem lexLt_total : ∀ a b : List Char, lexLt a b = false ∨ lexLt b a = false := by
  intro a
  induction a with
  | nil =>
      intro b
      cases b with
      | nil => left; rfl
      | cons y ys => right; rfl
  | cons x xs ih =>
      intro b
      cases b with
      | nil => left; rfl
      | cons y ys =>
          rcases Nat.lt_trichotomy x.toNat y.toNat with h | h | h
          · right; rw [lexLt_cons_false]; left; exact h
          · rcases ih ys with hl | hr
            · left; rw [lexLt_cons_false]; right; exact ⟨h, hl⟩
            · right; rw [lexLt_cons_false]; right; exact ⟨h.symm, hr⟩
          · left; rw [lexLt_cons_false]; left; exact h

instance : IsTotal String strLeR := by
  constructor
  intro a b
  rcases lexLt_total b.data a.data with h | h
  · left
    simp [strLeR, strLeB, strLtB, h]
  · right
    simp [strLeR, strLeB, strLtB, h]

instance : IsTrans String strLeR := by
  constructor
  intro a b c hab hbc
  simp only [strLeR, strLeB, strLtB, Bool.not_eq_true'] at hab hbc ⊢
  exact lexLt_not_lt_trans _ _ _ hab hbc

instance : IsAntisymm String strLeR := by
  constructor
  intro a b hab hba
  simp only [strLeR, strLeB, strLtB, Bool.not_eq_true'] at hab hba
  have h := lexLt_eq_of_not_lt a.data b.data hba hab
  cases a; cases b
  exact congrArg String.mk h

theorem sortStrings_eq_of_perm {l₁ l₂ : List String} (h : List.Perm l₁ l₂) :
    sortStrings l₁ = sortStrings l₂ := by
  apply List.eq_of_perm_of_sorted (r := strLeR)
  · exact ((List.perm_insertionSort strLeR l₁).trans h).trans
      (List.perm_insertionSort strLeR l₂).symm
  · exact List.sorted_insertionSort strLeR l₁
  · exact List.sorted_insertionSort strLeR l₂


/-! ## Helper lemmas about the embedding -/

theorem checkInts_map (ts : List Int) : checkInts (ts.map PyVal.vint) = .ok ts := by
  induction ts with
  | nil => rfl
  | cons t rest ih => simp [checkInts, ih, Except.map]

theorem checkInts_error {l : List PyVal} {v : PyVal} (hv : v ∈ l)
    (hnot : v.isVInt = false) :
    checkInts l = .error (.valueError "timeouts must be a list of ints") := by
  induction l with
  | nil => cases hv
  | cons x rest ih =>
      cases x with
      | vint t =>
          rcases List.mem_cons.mp hv with h | h
          · rw [h] at hnot; simp [PyVal.isVInt] at hnot
          · simp [checkInts, ih h, Except.map]
      | vlist _ => rfl
      | vother _ => rfl

theorem getLast?_eq_getLastD {l : List Int} (h : l ≠ []) :
    l.getLast? = some (l.getLastD 0) := by
  induction l with
  | nil => cases h rfl
  | cons x rest ih =>
      cases rest with
      | nil => rfl
      | cons y ys =>
          rw [List.getLast?_cons_cons]
          have := ih (by simp)
          simpa [List.getLastD] using this

theorem resolveTimeouts_ok_length {tv : PyVal} {n : Nat} {ts : List Int}
    (h : resolveTimeouts tv n = .ok ts) : n ≤ ts.length := by
  cases tv with
  | vint t =>
      simp [resolveTimeouts] at h
      simp [← h]
  | vother s => simp [resolveTimeouts] at h
  | vlist l =>
      simp only [resolveTimeouts] at h
      cases hc : checkInts l with
      | error e => simp only [hc] at h; cases h
      | ok l' =>
          simp only [hc] at h
          by_cases h1 : l'.length = n
          · rw [if_pos h1] at h
            have heq : l' = ts := by injection h
            subst heq
            omega
          · by_cases h2 : l'.length = 1
            · rw [if_neg h1, if_pos h2] at h
              have heq : List.replicate n (l'.headD 0) = ts := by injection h
              rw [← heq, List.length_replicate]
            · cases hl : l'.getLast? with
              | none => simp [h1, h2, hl] at h
              | some last =>
                  simp [h1, h2, hl] at h
                  subst h
                  simp [List.length_append, List.length_replicate]
                  omega

theorem perProblem_eq (d : DirData) (pname : String) (t : Int) :
    perProblem d pname t =
      if accepts d pname then some (problemXml d pname t, problemEntries d pname)
      else none := by
  unfold perProblem accepts
  cases hd : d.isDir <;> cases hp : pyStrIn pname asciiUppercase <;>
    cases hdesc : d.hasDescriptionFile <;> cases htest : d.hasTestsDir <;>
      by_cases h5 : (sortedIns d).length = 0 <;>
        by_cases h6 : (sortedOuts d).length = 0 <;>
          by_cases h7 : stemsOf (sortedIns d) = stemsOf (sortedOuts d) <;>
            simp [hd, hp, hdesc, htest, h5, h6, h7]

theorem processProblems_fst (fs : Fs) (l : List (String × Int)) :
    (processProblems fs l).1 =
      l.filterMap (fun pt =>
        if accepts (fs pt.1) (baseName pt.1) then
          some (problemXml (fs pt.1) (baseName pt.1) pt.2)
        else none) := by
  induction l with
  | nil => rfl
  | cons pt rest ih =>
      obtain ⟨p, t⟩ := pt
      rw [List.filterMap_cons]
      by_cases h : accepts (fs p) (baseName p) = true
      · simp only [processProblems, perProblem_eq, h, if_true]
        rw [← ih]
      · simp only [Bool.not_eq_true] at h
        simp only [processProblems, perProblem_eq, h, Bool.false_eq_true, if_false]
        rw [← ih]

theorem processProblems_snd (fs : Fs) (l : List (String × Int)) :
    (processProblems fs l).2 =
      l.flatMap (fun pt =>
        if accepts (fs pt.1) (baseName pt.1) then
          problemEntries (fs pt.1) (baseName pt.1)
        else []) := by
  induction l with
  | nil => rfl
  | cons pt rest ih =>
      obtain ⟨p, t⟩ := pt
      rw [List.flatMap_cons]
      by_cases h : accepts (fs p) (baseName p) = true
      · simp only [processProblems, perProblem_eq, h, if_true]
        rw [← ih]
      · simp only [Bool.not_eq_true] at h
        simp only [processProblems, perProblem_eq, h, Bool.false_eq_true, if_false]
        rw [← ih]
        simp

theorem exists_zip_pair {l₁ : List String} {l₂ : List Int} {p : String}
    (hp : p ∈ l₁) (hlen : l₁.length ≤ l₂.length) :
    ∃ t, (p, t) ∈ l₁.zip l₂ := by
  induction l₁ generalizing l₂ with
  | nil => cases hp
  | cons x xs ih =>
      cases l₂ with
      | nil => simp at hlen
      | cons y ys =>
          rcases List.mem_cons.mp hp with h | h
          · exact ⟨y, by simp [h]⟩
          · obtain ⟨t, ht⟩ := ih h (by simpa using Nat.le_of_succ_le_succ hlen)
            exact ⟨t, by simp [ht]⟩

/-- Inversion of a successful `buildArchive` run: the resolved timeouts and
the declarative shape of the manifest and archive. -/
theorem buildArchive_ok {fs : Fs} {paths : List String} {tspec : PyVal} {out : Output}
    (h : buildArchive fs paths tspec = .ok out) :
    ∃ ts, resolveTimeouts tspec (sortStrings paths).length = .ok ts ∧
      out.manifest = XML.elem "Problems" [("Presents", "radio")]
        (((sortStrings paths).zip ts).filterMap (fun pt =>
          if accepts (fs pt.1) (baseName pt.1) then
            some (problemXml (fs pt.1) (baseName pt.1) pt.2)
          else none)) ∧
      out.contentXml = ⟨"ISO-8859-1", true, out.manifest⟩ ∧
      out.archive = (((sortStrings paths).zip ts).flatMap (fun pt =>
          if accepts (fs pt.1) (baseName pt.1) then
            problemEntries (fs pt.1) (baseName pt.1)
          else []))
        ++ [⟨"Content.xml", .xmlDoc out.contentXml⟩] := by
  simp only [buildArchive] at h
  cases hr : resolveTimeouts tspec (sortStrings paths).length with
  | error e => simp only [hr] at h; cases h
  | ok ts =>
      simp only [hr] at h
      refine ⟨ts, rfl, ?_⟩
      have heq :
          ({ manifest := XML.elem "Problems" [("Presents", "radio")]
               (processProblems fs ((sortStrings paths).zip ts)).1,
             contentXml := ⟨"ISO-8859-1", true,
               XML.elem "Problems" [("Presents", "radio")]
                 (processProblems fs ((sortStrings paths).zip ts)).1⟩,
             archive := (processProblems fs ((sortStrings paths).zip ts)).2 ++
               [⟨"Content.xml", .xmlDoc ⟨"ISO-8859-1", true,
                 XML.elem "Problems" [("Presents", "radio")]
                   (processProblems fs ((sortStrings paths).zip ts)).1⟩⟩] } : Output) = out := by
        injection h
      subst heq
      refine ⟨?_, rfl, ?_⟩
      · rw [processProblems_fst]
      · rw [processProblems_snd]

theorem stemsOf_sortFiles_perm (l : List TestFile) :
    List.Perm (stemsOf (sortFiles l)) (stemsOf l) :=
  (List.perm_insertionSort fileLeR l).map _

theorem accepts_stems_eq {d : DirData} {pname : String} (h : accepts d pname = true) :
    stemsOf (sortedIns d) = stemsOf (sortedOuts d) := by
  have h2 := (Bool.and_eq_true _ _).mp h
  exact of_decide_eq_true h2.2

theorem stems_len_eq {d : DirData} {pname : String} (h : accepts d pname = true) :
    (sortedIns d).length = (sortedOuts d).length := by
  have he := congrArg List.length (accepts_stems_eq h)
  simpa [stemsOf] using he

theorem map_filterMap_if {α β γ : Type} (p : α → Bool) (f : α → β) (g : β → γ)
    (l : List α) :
    (l.filterMap (fun a => if p a then some (f a) else none)).map g
      = l.filterMap (fun a => if p a then some (g (f a)) else none) := by
  induction l with
  | nil => rfl
  | cons x xs ih => by_cases hx : p x <;> simp [List.filterMap_cons, hx, ih]

theorem flatMap_filterMap_if {α β γ : Type} (p : α → Bool) (f : α → β) (g : β → List γ)
    (l : List α) :
    (l.filterMap (fun a => if p a then some (f a) else none)).flatMap g
      = l.flatMap (fun a => if p a then g (f a) else []) := by
  induction l with
  | nil => rfl
  | cons x xs ih => by_cases hx : p x <;> simp [List.filterMap_cons, hx, ih]

theorem zip3_map_third {α β γ : Type} :
    ∀ (as : List α) (bs : List β) (cs : List γ),
      as.length = bs.length → as.length = cs.length →
      (zip3 as bs cs).map (fun x => x.2.2) = cs := by
  intro as
  induction as with
  | nil =>
      intro bs cs _ h2
      cases cs with
      | nil => rfl
      | cons c cs' => simp at h2
  | cons a as' ih =>
      intro bs cs h1 h2
      cases bs with
      | nil => simp at h1
      | cons b bs' =>
          cases cs with
          | nil => simp at h2
          | cons c cs' =>
              simp [zip3, ih bs' cs' (by simpa using h1) (by simpa using h2)]

theorem in_entry_mem (pname : String) :
    ∀ (ins outs : List TestFile) (tf : TestFile), tf ∈ ins →
      outs.length = ins.length →
      (ArchiveEntry.mk (pname ++ "/tests/" ++ pyStem tf.name ++ "/" ++ tf.name)
        (.bytes tf.content))
        ∈ (zip3 ins outs (stemsOf ins)).flatMap (testEntries pname) := by
  intro ins
  induction ins with
  | nil => intro outs tf htf _; cases htf
  | cons x ins' ih =>
      intro outs tf htf hlen
      cases outs with
      | nil => simp at hlen
      | cons y outs' =>
          simp only [stemsOf, List.map_cons, zip3, List.flatMap_cons]
          rcases List.mem_cons.mp htf with rfl | hmem
          · apply List.mem_append_left
            simp [testEntries]
          · apply List.mem_append_right
            have hr := ih outs' tf hmem (by simpa using hlen)
            simpa [stemsOf] using hr

theorem out_entry_mem (pname : String) :
    ∀ (ins outs : List TestFile) (tf : TestFile), tf ∈ outs →
      stemsOf ins = stemsOf outs →
      (ArchiveEntry.mk (pname ++ "/tests/" ++ pyStem tf.name ++ "/" ++ tf.name)
        (.bytes tf.content))
        ∈ (zip3 ins outs (stemsOf ins)).flatMap (testEntries pname) := by
  intro ins
  induction ins with
  | nil =>
      intro outs tf htf hst
      cases outs with
      | nil => cases htf
      | cons y outs' => simp [stemsOf] at hst
  | cons x ins' ih =>
      intro outs tf htf hst
      cases outs with
      | nil => simp [stemsOf] at hst
      | cons y outs' =>
          simp only [stemsOf, List.map_cons, List.cons.injEq] at hst
          obtain ⟨hxy, hrest⟩ := hst
          simp only [stemsOf, List.map_cons, zip3, List.flatMap_cons]
          rcases List.mem_cons.mp htf with rfl | hmem
          · apply List.mem_append_left
            simp [testEntries, hxy]
          · apply List.mem_append_right
            have hr := ih outs' tf hmem hrest
            simpa [stemsOf] using hr

theorem filterMap_nil_of {α β : Type} {f : α → Option β} :
    ∀ {l : List α}, (∀ a ∈ l, f a = none) → l.filterMap f = [] := by
  intro l h
  induction l with
  | nil => rfl
  | cons x xs ih =>
      rw [List.filterMap_cons, h x (by simp)]
      exact ih (fun a ha => h a (by simp [ha]))

theorem flatMap_nil_of {α β : Type} {f : α → List β} :
    ∀ {l : List α}, (∀ a ∈ l, f a = []) → l.flatMap f = [] := by
  intro l h
  induction l with
  | nil => rfl
  | cons x xs ih =>
      rw [List.flatMap_cons, h x (by simp)]
      exact ih (fun a ha => h a (by simp [ha]))

/-! ## The claims -/

/-- C1: the spec says the name check accepts exactly the one-character
uppercase names `A`-`Z`.  The code's check (line 86) is
`pname not in string.ascii_uppercase`, and Python's `in` on strings is
substring containment, so the multi-letter name `AB` (a contiguous run of
`"ABCDEFGHIJKLMNOPQRSTUVWXYZ"`) is accepted and, with a valid layout, the
problem `AB` is included — contradicting both the spec and the code's own
diagnostic ("Directory name '...' is not an ascii uppercase letter").
The spec's examples (`AA`, `a`, `1`, `Problem1`) are indeed rejected. -/
theorem c1_name_check_substring_bug :
    pyStrIn "A" asciiUppercase = true ∧
    pyStrIn "Z" asciiUppercase = true ∧
    pyStrIn "AA" asciiUppercase = false ∧
    pyStrIn "a" asciiUppercase = false ∧
    pyStrIn "1" asciiUppercase = false ∧
    pyStrIn "Problem1" asciiUppercase = false ∧
    pyStrIn "AB" asciiUppercase = true ∧
    accepts validDir "AB" = true ∧
    (perProblem validDir "AB" 1).isSome = true := by decide

/-- C2: for every problem count `n` and every valid timeout-specification
shape, the resolved sequence has length `n` and follows the documented
rule — a scalar or one-element list broadcasts, an `n`-length list is kept
for positional pairing, and a shorter multi-element list is padded by
repeating its last element. -/
theorem c2_timeout_resolution (n : Nat) (t : Int) (ts : List Int) :
    (resolveTimeouts (.vint t) n = .ok (List.replicate n t)
      ∧ (List.replicate n t).length = n) ∧
    (ts.length = n → resolveTimeouts (.vlist (ts.map .vint)) n = .ok ts) ∧
    (ts.length = 1 →
      resolveTimeouts (.vlist (ts.map .vint)) n = .ok (List.replicate n (ts.headD 0))
      ∧ (List.replicate n (ts.headD 0)).length = n) ∧
    (1 < ts.length → ts.length < n →
      resolveTimeouts (.vlist (ts.map .vint)) n
        = .ok (ts ++ List.replicate (n - ts.length) (ts.getLastD 0))
      ∧ (ts ++ List.replicate (n - ts.length) (ts.getLastD 0)).length = n) := by
  refine ⟨⟨rfl, List.length_replicate n t⟩, ?_, ?_, ?_⟩
  · intro h
    simp only [resolveTimeouts, checkInts_map]
    rw [if_pos h]
  · intro h
    by_cases hn : ts.length = n
    · have hn1 : n = 1 := by omega
      subst hn1
      obtain ⟨a, rfl⟩ := List.length_eq_one.mp h
      exact ⟨by simp only [resolveTimeouts, checkInts_map]; rfl, rfl⟩
    · refine ⟨?_, List.length_replicate n _⟩
      simp only [resolveTimeouts, checkInts_map]
      rw [if_neg hn, if_pos h]
  · intro h1 h2
    have hne : ¬ (ts.length = n) := by omega
    have hne1 : ¬ (ts.length = 1) := by omega
    have hnil : ts ≠ [] := by
      intro hh
      rw [hh] at h1
      simp at h1
    constructor
    · simp only [resolveTimeouts, checkInts_map]
      rw [if_neg hne, if_neg hne1, getLast?_eq_getLastD hnil]
    · simp only [List.length_append, List.length_replicate]
      omega

/-- C2 witness: the broadcast, positional, single-element and padding shapes
at concrete inputs. -/
theorem c2_timeout_resolution_witness :
    (resolveTimeouts (.vint 7) 3 = .ok (List.replicate 3 (7 : Int))) ∧
    (resolveTimeouts (.vlist (([3, 4] : List Int).map .vint)) 2 = .ok [3, 4]) ∧
    (resolveTimeouts (.vlist (([9] : List Int).map .vint)) 3
      = .ok (List.replicate 3 ((([9] : List Int)).headD 0))) ∧
    (resolveTimeouts (.vlist (([3, 4] : List Int).map .vint)) 5
      = .ok ([3, 4] ++ List.replicate (5 - ([3, 4] : List Int).length)
              (([3, 4] : List Int).getLastD 0))) :=
  ⟨(c2_timeout_resolution 3 7 []).1.1,
   (c2_timeout_resolution 2 0 [3, 4]).2.1 rfl,
   ((c2_timeout_resolution 3 0 [9]).2.2.1 rfl).1,
   ((c2_timeout_resolution 5 0 [3, 4]).2.2.2 (by decide) (by decide)).1⟩

/-- C4: a timeout list containing a non-integer, or a timeout specification
that is neither an int nor a list, makes `build_archive` raise `ValueError`
at lines 58/68 — before `tarfile.open` at line 72, so the archive file is
never created and no filesystem mutation happens. -/
theorem c4_invalid_timeouts_abort (fs : Fs) (paths : List String) :
    (∀ (l : List PyVal) (v : PyVal), v ∈ l → v.isVInt = false →
      buildArchive fs paths (.vlist l)
          = .error (.valueError "timeouts must be a list of ints")
        ∧ archiveFileCreated paths (.vlist l) = false) ∧
    (∀ s, buildArchive fs paths (.vother s)
          = .error (.valueError "timeouts must be an int or a list")
        ∧ archiveFileCreated paths (.vother s) = false) := by
  constructor
  · intro l v hv hnot
    have hre : resolveTimeouts (.vlist l) (sortStrings paths).length
        = .error (.valueError "timeouts must be a list of ints") := by
      simp [resolveTimeouts, checkInts_error hv hnot]
    exact ⟨by simp [buildArchive, hre], by simp [archiveFileCreated, hre]⟩
  · intro s
    exact ⟨by simp [buildArchive, resolveTimeouts],
           by simp [archiveFileCreated, resolveTimeouts]⟩

/-- C4 witness: a list with a non-int member, and a plain non-list value. -/
theorem c4_invalid_timeouts_abort_witness :
    (buildArchive emptyFs ["A"] (.vlist [PyVal.vint 1, PyVal.vother "x"])
        = .error (.valueError "timeouts must be a list of ints")
      ∧ archiveFileCreated ["A"] (.vlist [PyVal.vint 1, PyVal.vother "x"]) = false) ∧
    (buildArchive emptyFs ["A"] (.vother "two")
        = .error (.valueError "timeouts must be an int or a list")
      ∧ archiveFileCreated ["A"] (.vother "two") = false) :=
  ⟨(c4_invalid_timeouts_abort emptyFs ["A"]).1 [PyVal.vint 1, PyVal.vother "x"]
      (PyVal.vother "x") (List.mem_cons_of_mem _ (List.mem_cons_self _ _)) rfl,
   (c4_invalid_timeouts_abort emptyFs ["A"]).2 "two"⟩

/-- C10: an empty timeout list with a non-empty problem list reaches the
padding step `timeouts + [timeouts[-1]] * ...` (line 65), where indexing
the last element of an empty list raises an uncaught `IndexError` — not one
of the two documented `ValueError`s — again before `tarfile.open`, so no
archive file is created. -/
theorem c10_empty_timeout_list (fs : Fs) (paths : List String) (h : paths ≠ []) :
    buildArchive fs paths (.vlist []) = .error .indexError ∧
    archiveFileCreated paths (.vlist []) = false := by
  have hlen : (sortStrings paths).length = paths.length :=
    (List.perm_insertionSort strLeR paths).length_eq
  have hne : ¬ ((0 : Nat) = (sortStrings paths).length) := by
    rw [hlen]
    intro h0
    exact h (List.length_eq_zero.mp h0.symm)
  have hre : resolveTimeouts (.vlist []) (sortStrings paths).length
      = .error .indexError := by
    simp [resolveTimeouts, checkInts, hne]
  exact ⟨by simp [buildArchive, hre], by simp [archiveFileCreated, hre]⟩

/-- C10 witness: one problem, empty timeout list. -/
theorem c10_empty_timeout_list_witness :
    buildArchive emptyFs ["A"] (.vlist []) = .error .indexError ∧
    archiveFileCreated ["A"] (.vlist []) = false :=
  c10_empty_timeout_list emptyFs ["A"] (by simp)

/-- C3 counterexample: a problem passing every earlier check whose
lexicographically sorted `.in` stems equal its lexicographically sorted
`.out` stems, yet the code rejects it — the code compares the stem
sequences taken from the filename-sorted lists, which here disagree in
order. -/
theorem c3_test_matching_counterexample :
    sortStrings (stemsOf (dotStemRejectDir.testFiles.filter
        (fun f => strEndsWith f.name ".in")))
      = sortStrings (stemsOf (dotStemRejectDir.testFiles.filter
          (fun f => strEndsWith f.name ".out"))) ∧
    dotStemRejectDir.isDir = true ∧
    pyStrIn "A" asciiUppercase = true ∧
    dotStemRejectDir.hasDescriptionFile = true ∧
    dotStemRejectDir.hasTestsDir = true ∧
    (sortedIns dotStemRejectDir).length ≠ 0 ∧
    (sortedOuts dotStemRejectDir).length ≠ 0 ∧
    stemsOf (sortedIns dotStemRejectDir) = ["a", "a.o"] ∧
    stemsOf (sortedOuts dotStemRejectDir) = ["a.o", "a"] ∧
    (perProblem dotStemRejectDir "A" 1).isSome = false := by decide

/-- C3 amended: for a problem passing the earlier checks, the test-matching
check accepts iff the stem sequences taken from the *filename-sorted*
`.in` and `.out` lists are equal (same length, values and order); this
implies — but is not implied by — equality of the lexicographically sorted
stem sequences.  Any mismatch rejects the whole problem. -/
theorem c3_test_matching_amended (d : DirData) (pname : String) (t : Int)
    (h1 : d.isDir = true) (h2 : pyStrIn pname asciiUppercase = true)
    (h3 : d.hasDescriptionFile = true) (h4 : d.hasTestsDir = true)
    (h5 : (sortedIns d).length ≠ 0) (h6 : (sortedOuts d).length ≠ 0) :
    ((perProblem d pname t).isSome = true ↔
      stemsOf (sortedIns d) = stemsOf (sortedOuts d)) ∧
    ((perProblem d pname t).isSome = true →
      sortStrings (stemsOf (d.testFiles.filter (fun f => strEndsWith f.name ".in")))
        = sortStrings (stemsOf (d.testFiles.filter (fun f => strEndsWith f.name ".out")))) := by
  have hiff : (perProblem d pname t).isSome = true ↔
      stemsOf (sortedIns d) = stemsOf (sortedOuts d) := by
    rw [perProblem_eq]
    by_cases h7 : stemsOf (sortedIns d) = stemsOf (sortedOuts d)
    · have hacc : accepts d pname = true := by
        simp [accepts, h1, h2, h3, h4, h5, h6, h7]
      simp [hacc, h7]
    · have hacc : accepts d pname = false := by
        simp [accepts, h7]
      simp [hacc, h7]
  refine ⟨hiff, ?_⟩
  intro hsome
  have h7 := hiff.mp hsome
  have e1 : sortStrings (stemsOf (d.testFiles.filter (fun f => strEndsWith f.name ".in")))
      = sortStrings (stemsOf (sortedIns d)) :=
    (sortStrings_eq_of_perm (stemsOf_sortFiles_perm
      (d.testFiles.filter (fun f => strEndsWith f.name ".in")))).symm
  have e2 : sortStrings (stemsOf (d.testFiles.filter (fun f => strEndsWith f.name ".out")))
      = sortStrings (stemsOf (sortedOuts d)) :=
    (sortStrings_eq_of_perm (stemsOf_sortFiles_perm
      (d.testFiles.filter (fun f => strEndsWith f.name ".out")))).symm
  rw [e1, e2, h7]

/-- C3 amended witness: a valid one-pair problem, where the check indeed
accepts and both sorted stem sequences agree. -/
theorem c3_test_matching_amended_witness :
    ((perProblem validDir "A" 1).isSome = true ↔
      stemsOf (sortedIns validDir) = stemsOf (sortedOuts validDir)) ∧
    ((perProblem validDir "A" 1).isSome = true →
      sortStrings (stemsOf (validDir.testFiles.filter (fun f => strEndsWith f.name ".in")))
        = sortStrings (stemsOf (validDir.testFiles.filter
            (fun f => strEndsWith f.name ".out")))) :=
  c3_test_matching_amended validDir "A" 1 (by decide) (by decide) (by decide)
    (by decide) (by decide) (by decide)

/-- C5: once the timeout specification resolves, `build_archive` returns
normally for every filesystem and candidate list — per-problem validation
failures only `continue` to the next candidate — the archive always ends
with the `Content.xml` manifest, and a run in which every candidate is
excluded still produces an archive holding exactly the manifest with an
empty problem list. -/
theorem c5_per_problem_failures_excluded_only (fs : Fs) (paths : List String)
    (tspec : PyVal) (ts : List Int)
    (h : resolveTimeouts tspec (sortStrings paths).length = .ok ts) :
    ∃ out, buildArchive fs paths tspec = .ok out ∧
      out.archive.getLast? = some ⟨"Content.xml", .xmlDoc out.contentXml⟩ ∧
      ((∀ p ∈ paths, accepts (fs p) (baseName p) = false) →
        out.manifest = XML.elem "Problems" [("Presents", "radio")] [] ∧
        out.archive = [⟨"Content.xml", .xmlDoc out.contentXml⟩]) := by
  obtain ⟨out, hout⟩ : ∃ out, buildArchive fs paths tspec = .ok out := by
    simp only [buildArchive, h]
    exact ⟨_, rfl⟩
  obtain ⟨ts', _, hman, _, harch⟩ := buildArchive_ok hout
  refine ⟨out, hout, ?_, ?_⟩
  · rw [harch]
    exact List.getLast?_concat _
  · intro hall
    have hnone : ∀ pt ∈ (sortStrings paths).zip ts',
        accepts (fs pt.1) (baseName pt.1) = false := by
      intro pt hpt
      have hp : pt.1 ∈ sortStrings paths := by
        obtain ⟨p, t⟩ := pt
        exact (List.of_mem_zip hpt).1
      have hp' : pt.1 ∈ paths := (List.mem_insertionSort strLeR).mp hp
      exact hall pt.1 hp'
    constructor
    · rw [hman]
      congr 1
      apply filterMap_nil_of
      intro pt hpt
      simp [hnone pt hpt]
    · rw [harch]
      have : (((sortStrings paths).zip ts').flatMap (fun pt =>
          if accepts (fs pt.1) (baseName pt.1) then
            problemEntries (fs pt.1) (baseName pt.1)
          else [])) = [] := by
        apply flatMap_nil_of
        intro pt hpt
        simp [hnone pt hpt]
      rw [this]
      rfl

/-- C5 witness: a single invalid candidate; the run still succeeds and the
archive is exactly the manifest. -/
theorem c5_per_problem_failures_excluded_only_witness :
    ∃ out, buildArchive emptyFs ["Z"] (.vint 1) = .ok out ∧
      out.archive.getLast? = some ⟨"Content.xml", .xmlDoc out.contentXml⟩ ∧
      ((∀ p ∈ ["Z"], accepts (emptyFs p) (baseName p) = false) →
        out.manifest = XML.elem "Problems" [("Presents", "radio")] [] ∧
        out.archive = [⟨"Content.xml", .xmlDoc out.contentXml⟩]) :=
  c5_per_problem_failures_excluded_only emptyFs ["Z"] (.vint 1) [1] rfl

/-- C8: the staging directory is governed by the
`with tempfile.TemporaryDirectory()` context manager (line 74): it is
removed on exit whether the body returned normally or raised, and the
body's outcome (including a propagated error) is unchanged.  Consequently
no traced run of `build_archive` — fault-free or with an injected staging
fault — ends with the staging directory in existence. -/
theorem c8_tmpdir_always_removed :
    (∀ (body : Traced PyError Output),
        tmpdirExistsAfter (withTempDir body).events = false ∧
        (withTempDir body).result = body.result) ∧
    (∀ (fs : Fs) (paths : List String) (tspec : PyVal) (fault : Option PyError),
        tmpdirExistsAfter (buildArchiveRun fs paths tspec fault).events = false) := by
  constructor
  · intro body
    constructor
    · simp [withTempDir, tmpdirExistsAfter, List.foldl_append]
    · rfl
  · intro fs paths tspec fault
    simp only [buildArchiveRun]
    cases hr : resolveTimeouts tspec (sortStrings paths).length with
    | error e => rfl
    | ok ts => rfl

/-- C6: for every successful run, `Content.xml` is the serialization of the
manifest with encoding `ISO-8859-1` and an XML declaration, and the
manifest is the root element `Problems` with attribute `Presents="radio"`
holding, in order, one `Problem` element per surviving problem whose
`xml:id`, `Name` and `Title` equal its letter, whose `Description` is
`description.html` and whose `Timeout` is the decimal string of its
resolved timeout, nesting a `Tests` element with identifier
`<letter>.tests` that holds one `Test` element per test case with
identifier `<letter>.tests.<stem>` and `input`/`output` equal to the
literal filenames. -/
theorem c6_manifest_structure (fs : Fs) (paths : List String) (tspec : PyVal)
    (out : Output) (h : buildArchive fs paths tspec = .ok out) :
    out.contentXml.encoding = "ISO-8859-1" ∧ out.contentXml.xmlDecl = true ∧
    out.contentXml.doc = out.manifest ∧
    ∃ ts, resolveTimeouts tspec (sortStrings paths).length = .ok ts ∧
      out.manifest = XML.elem "Problems" [("Presents", "radio")]
        (((sortStrings paths).zip ts).filterMap (fun pt =>
          if accepts (fs pt.1) (baseName pt.1) then
            some (XML.elem "Problem"
              [("xml:id", baseName pt.1), ("Name", baseName pt.1), ("Title", baseName pt.1),
               ("Description", "description.html"), ("Timeout", toString pt.2)]
              [XML.elem "Tests" [("xml:id", baseName pt.1 ++ ".tests")]
                ((zip3 (sortedIns (fs pt.1)) (sortedOuts (fs pt.1))
                    (stemsOf (sortedIns (fs pt.1)))).map (fun iot =>
                  XML.elem "Test"
                    [("xml:id", baseName pt.1 ++ ".tests." ++ iot.2.2),
                     ("input", iot.1.name), ("output", iot.2.1.name)] []))])
          else none)) := by
  obtain ⟨ts, hts, hman, hcx, _⟩ := buildArchive_ok h
  refine ⟨by rw [hcx], by rw [hcx], by rw [hcx], ts, hts, ?_⟩
  rw [hman]
  simp only [problemXml, testXml]

/-- C6 witness: a one-problem run; its `Content.xml` really carries the
`ISO-8859-1` encoding, the declaration flag, and the manifest document. -/
theorem c6_manifest_structure_witness :
    (buildArchive oneProblemFs ["A"] (.vint 2)).toOption.map
        (fun o => (o.contentXml.encoding, o.contentXml.xmlDecl,
                   (o.contentXml.doc.tag, o.manifest.tag)))
      = some ("ISO-8859-1", true, "Problems", "Problems") := by
  obtain ⟨out, hout⟩ : ∃ out, buildArchive oneProblemFs ["A"] (.vint 2) = .ok out :=
    ⟨_, rfl⟩
  have hc := c6_manifest_structure oneProblemFs ["A"] (.vint 2) out hout
  rw [hout]
  obtain ⟨ts, _, hman⟩ := hc.2.2.2
  simp [Except.toOption, hc.1, hc.2.1, hc.2.2.1, hman, XML.tag]

/-- C7: every successful run's archive ends with the `Content.xml` manifest
member, added after all problem members; and for every accepted problem
with letter `L` it contains `L/description.html` (a byte copy of the
source description) and, for every test file, `L/tests/<stem>/<original
filename>` (byte copies preserving filenames, the directory being named
after the stem). -/
theorem c7_archive_contents (fs : Fs) (paths : List String) (tspec : PyVal)
    (out : Output) (h : buildArchive fs paths tspec = .ok out) :
    out.archive.getLast? = some ⟨"Content.xml", .xmlDoc out.contentXml⟩ ∧
    ∀ p ∈ paths, accepts (fs p) (baseName p) = true →
      (ArchiveEntry.mk (baseName p ++ "/description.html")
          (.bytes (fs p).descriptionContent)) ∈ out.archive ∧
      (∀ tf ∈ sortedIns (fs p),
        (ArchiveEntry.mk (baseName p ++ "/tests/" ++ pyStem tf.name ++ "/" ++ tf.name)
          (.bytes tf.content)) ∈ out.archive) ∧
      (∀ tf ∈ sortedOuts (fs p),
        (ArchiveEntry.mk (baseName p ++ "/tests/" ++ pyStem tf.name ++ "/" ++ tf.name)
          (.bytes tf.content)) ∈ out.archive) := by
  obtain ⟨ts, hts, _, _, harch⟩ := buildArchive_ok h
  constructor
  · rw [harch]
    exact List.getLast?_concat _
  · intro p hp hacc
    have hp' : p ∈ sortStrings paths := (List.mem_insertionSort strLeR).mpr hp
    have hlen : (sortStrings paths).length ≤ ts.length := resolveTimeouts_ok_length hts
    obtain ⟨t, hmemzip⟩ := exists_zip_pair hp' hlen
    have hsub : ∀ x ∈ problemEntries (fs p) (baseName p), x ∈ out.archive := by
      intro x hx
      rw [harch]
      apply List.mem_append_left
      apply List.mem_flatMap.mpr
      exact ⟨(p, t), hmemzip, by simpa [hacc] using hx⟩
    refine ⟨?_, ?_, ?_⟩
    · exact hsub _ (List.mem_cons_self _ _)
    · intro tf htf
      exact hsub _ (List.mem_cons_of_mem _
        (in_entry_mem (baseName p) (sortedIns (fs p)) (sortedOuts (fs p)) tf htf
          (stems_len_eq hacc).symm))
    · intro tf htf
      exact hsub _ (List.mem_cons_of_mem _
        (out_entry_mem (baseName p) (sortedIns (fs p)) (sortedOuts (fs p)) tf htf
          (accepts_stems_eq hacc)))

/-- C7 witness: in the one-problem run the archive ends with `Content.xml`
and contains the copied description file. -/
theorem c7_archive_contents_witness :
    ∃ out, buildArchive oneProblemFs ["A"] (.vint 2) = .ok out ∧
      out.archive.getLast? = some ⟨"Content.xml", .xmlDoc out.contentXml⟩ ∧
      (ArchiveEntry.mk ("A" ++ "/description.html")
        (.bytes validDir.descriptionContent)) ∈ out.archive := by
  obtain ⟨out, hout⟩ : ∃ out, buildArchive oneProblemFs ["A"] (.vint 2) = .ok out :=
    ⟨_, rfl⟩
  have hc := c7_archive_contents oneProblemFs ["A"] (.vint 2) out hout
  refine ⟨out, hout, hc.1, ?_⟩
  exact (hc.2 "A" (by simp) (by decide)).1

/-- C9 counterexample: a surviving problem whose `Test` elements appear in
the manifest in the order `a.b`, `a` — the order of the sorted `.in`
filenames — while the claim's sorted-stem order would be `a`, `a.b`. -/
theorem c9_counterexample :
    ((buildArchive dotStemFs ["A"] (.vint 1)).toOption.map
        (fun o => testIds o.manifest))
      = some ["A.tests.a.b", "A.tests.a"] ∧
    (sortStrings (stemsOf (dotStemAcceptDir.testFiles.filter
        (fun f => strEndsWith f.name ".in")))).map (fun s => "A.tests." ++ s)
      = ["A.tests.a", "A.tests.a.b"] ∧
    (["A.tests.a.b", "A.tests.a"] : List String) ≠ ["A.tests.a", "A.tests.a.b"] := by
  decide

/-- C9 amended: on identical, unchanged inputs the produced `Content.xml`
document — hence its serialized bytes — is independent of the order in
which the problem directories were supplied or enumerated; problem
elements appear in order of the sorted directory paths, and the test
elements of each problem appear in the order of the stems of its
filename-sorted `.in` files (which is the sorted-stem order whenever stems
contain no extra dots). -/
theorem c9_amended_deterministic_manifest (fs : Fs) (tspec : PyVal)
    (l₁ l₂ : List String) (hperm : List.Perm l₁ l₂) :
    buildArchive fs l₁ tspec = buildArchive fs l₂ tspec ∧
    (∀ out, buildArchive fs l₁ tspec = .ok out →
      ∃ ts, resolveTimeouts tspec (sortStrings l₁).length = .ok ts ∧
        problemIds out.manifest
          = ((sortStrings l₁).zip ts).filterMap (fun pt =>
              if accepts (fs pt.1) (baseName pt.1) then some (baseName pt.1) else none) ∧
        testIds out.manifest
          = ((sortStrings l₁).zip ts).flatMap (fun pt =>
              if accepts (fs pt.1) (baseName pt.1) then
                (stemsOf (sortedIns (fs pt.1))).map
                  (fun s => baseName pt.1 ++ ".tests." ++ s)
              else [])) := by
  constructor
  · unfold buildArchive
    rw [sortStrings_eq_of_perm hperm]
  · intro out hout
    obtain ⟨ts, hts, hman, _, _⟩ := buildArchive_ok hout
    refine ⟨ts, hts, ?_, ?_⟩
    · rw [hman]
      simp only [problemIds, XML.children]
      rw [map_filterMap_if]
      congr 1
    · rw [hman]
      simp only [testIds, XML.children]
      rw [flatMap_filterMap_if]
      congr 1
      funext pt
      by_cases hacc : accepts (fs pt.1) (baseName pt.1)
      · simp only [hacc, if_true, problemXml, XML.children, List.flatMap_cons,
          List.flatMap_nil, List.append_nil, testXml, List.map_map]
        have hlen1 : (sortedIns (fs pt.1)).length = (sortedOuts (fs pt.1)).length :=
          stems_len_eq hacc
        have hlen2 : (sortedIns (fs pt.1)).length
            = (stemsOf (sortedIns (fs pt.1))).length := by
          simp [stemsOf]
        have h3 := zip3_map_third (sortedIns (fs pt.1)) (sortedOuts (fs pt.1))
          (stemsOf (sortedIns (fs pt.1))) hlen1 hlen2
        calc
          (zip3 (sortedIns (fs pt.1)) (sortedOuts (fs pt.1))
              (stemsOf (sortedIns (fs pt.1)))).map
            (fun iot => (xmlAttr "xml:id" (XML.elem "Test"
              [("xml:id", baseName pt.1 ++ ".tests." ++ iot.2.2),
               ("input", iot.1.name), ("output", iot.2.1.name)] [])).getD "")
              = (zip3 (sortedIns (fs pt.1)) (sortedOuts (fs pt.1))
                  (stemsOf (sortedIns (fs pt.1)))).map
                (fun iot => baseName pt.1 ++ ".tests." ++ iot.2.2) := by
                simp [xmlAttr, XML.attrs, List.find?]
          _ = ((zip3 (sortedIns (fs pt.1)) (sortedOuts (fs pt.1))
                  (stemsOf (sortedIns (fs pt.1)))).map (fun x => x.2.2)).map
                (fun s => baseName pt.1 ++ ".tests." ++ s) := by
                rw [List.map_map]
                rfl
          _ = (stemsOf (sortedIns (fs pt.1))).map
                (fun s => baseName pt.1 ++ ".tests." ++ s) := by rw [h3]
      · simp [hacc]

/-- C9 amended witness: supplying the directories in either order yields
the same run result. -/
theorem c9_amended_deterministic_manifest_witness :
    buildArchive oneProblemFs ["B", "A"] (.vint 1)
      = buildArchive oneProblemFs ["A", "B"] (.vint 1) :=
  (c9_amended_deterministic_manifest oneProblemFs (.vint 1) ["B", "A"] ["A", "B"]
    (List.Perm.swap "A" "B" [])).1

end Mooshak
